import Mathlib

/-!
Verification of the zlimit call-rate-limiting utility (src/index.js).

The source keeps two plain JavaScript objects, `timeouts` and
`remainingCalls`, and tests membership with the JavaScript `in` operator
(`name in timeouts`).  On a plain object literal `{}` the `in` operator
also sees the properties inherited from `Object.prototype`
(`toString`, `hasOwnProperty`, ...), so the embedding models a plain
object as the association list of its own properties together with the
fixed list of inherited `Object.prototype` keys.

JavaScript numbers are modelled as integers (all values the program
stores are produced by `Date.now()`, by the caller's `limit` argument, or
by a decrement).  Reading an inherited `Object.prototype` property yields
a function (or, for `__proto__`, an object); arithmetic on such a value
produces `NaN` (or a non-numeric string), and every `<`/`>=` comparison
involving it is false.  The embedding records such reads with the
`JSVal.inherited` constructor and makes both comparisons used by the
source false on it.

`Date.now()` is modelled by passing the current time as an explicit
argument of each `throttle` call (the design reads time once per call).
The caller-supplied action is opaque; each operation reports whether it
invoked the action via the `executed` field.
-/

/-- Own enumerable properties of a plain JS object whose stored values are
numbers: an association list from property key to integer value. -/
abbrev JSObj := List (String × Int)

/-- Property keys of `Object.prototype`, all visible through the JS `in`
operator on a plain object literal. -/
def objectPrototypeKeys : List String :=
  ["constructor", "hasOwnProperty", "isPrototypeOf", "propertyIsEnumerable",
   "toLocaleString", "toString", "valueOf", "__proto__",
   "__defineGetter__", "__defineSetter__", "__lookupGetter__", "__lookupSetter__"]

/-- The key is one of the property keys inherited from `Object.prototype`. -/
def jsProtoKey (name : String) : Prop := name ∈ objectPrototypeKeys

instance (name : String) : Decidable (jsProtoKey name) := by
  unfold jsProtoKey; infer_instance

/-- Value of an own property (`none` when the object has no own property
with that key). -/
def jsGetOwn : JSObj → String → Option Int
  | [], _ => none
  | (k, v) :: o, name => if k = name then some v else jsGetOwn o name

/-- JS `Object.hasOwn`: the object has an own property with this key. -/
def jsHasOwn (o : JSObj) (name : String) : Bool := (jsGetOwn o name).isSome

/-- The JS `in` operator on a plain object: sees own properties and the
properties inherited from `Object.prototype`. -/
def jsIn (o : JSObj) (name : String) : Bool :=
  jsHasOwn o name || decide (jsProtoKey name)

/-- Result of a JS property read `o[name]`. -/
inductive JSVal where
  /-- An own numeric property. -/
  | num (n : Int)
  /-- A property inherited from `Object.prototype` (a function, or the
  prototype object itself for `__proto__`): non-numeric, so every
  arithmetic comparison on it is false. -/
  | inherited
  /-- Absent property: the read yields `undefined`. -/
  | undefined
  deriving DecidableEq, Repr

/-- JS property read `o[name]`, including the prototype chain. -/
def jsGetVal (o : JSObj) (name : String) : JSVal :=
  match jsGetOwn o name with
  | some v => .num v
  | none => if jsProtoKey name then .inherited else .undefined

/-- JS assignment `o[name] = v`: replace the own property if present,
otherwise create it.  (The source never assigns to a key whose only
binding is inherited: every assignment is guarded by a failed `in` test
or by a numeric comparison that is false on inherited values.) -/
def jsSet : JSObj → String → Int → JSObj
  | [], name, v => [(name, v)]
  | (k, w) :: o, name, v =>
      if k = name then (k, v) :: o else (k, w) :: jsSet o name v

/-- JS `o[name]--` on an own numeric property.  (The source only
decrements under the guard `o[name] > 0`, which forces an own numeric
property.) -/
def jsDecr : JSObj → String → JSObj
  | [], _ => []
  | (k, v) :: o, name =>
      if k = name then (k, v - 1) :: o else (k, v) :: jsDecr o name

/-- JS `delete o[name]`: removes the own property; inherited properties
are untouched. -/
def jsDelete : JSObj → String → JSObj
  | [], _ => []
  | (k, v) :: o, name =>
      if k = name then jsDelete o name else (k, v) :: jsDelete o name

/-- The JS comparison `v > 0`: false whenever `v` is not a number
(`NaN` comparisons are false). -/
def jsGtZero : JSVal → Bool
  | .num n => decide (0 < n)
  | _ => false

/-- The JS comparison `now >= v + interval` from `throttle`: when `v` is
not a number, `v + interval` is `NaN` or a non-numeric string and the
comparison is false. -/
def jsNowGe (now : Int) (v : JSVal) (interval : Int) : Bool
  := match v with
  | .num t => decide (t + interval ≤ now)
  | _ => false

/-- The limiter registry: the two private objects of a `ZLimit` instance. -/
structure ZLimit where
  timeouts : JSObj
  remainingCalls : JSObj
  deriving DecidableEq, Repr

/-- A freshly constructed registry: `timeouts = {}`, `remainingCalls = {}`. -/
def ZLimit.init : ZLimit := ⟨[], []⟩

/-- A JS return value of `throttle` / `limit`: `true`, `false`, or
`undefined` (falling off the end of the function body). -/
inductive JSRet where
  | tru
  | fls
  | undefined
  deriving DecidableEq, Repr

/-- Result of one operation call: the registry afterwards, whether the
caller's action was invoked, and the JS return value. -/
structure OpResult where
  state : ZLimit
  executed : Bool
  ret : JSRet
  deriving DecidableEq, Repr

/-- `zLimit.throttle(name, func, interval)`; `now` is the value of
`Date.now()` during the call. -/
def ZLimit.throttle (s : ZLimit) (name : String) (interval now : Int) : OpResult :=
  if ¬ jsIn s.timeouts name then
    ⟨⟨jsSet s.timeouts name now, s.remainingCalls⟩, true, .fls⟩
  else if jsNowGe now (jsGetVal s.timeouts name) interval then
    ⟨⟨jsSet s.timeouts name now, s.remainingCalls⟩, true, .tru⟩
  else
    ⟨s, false, .undefined⟩

/-- `zLimit.limit(name, func, limit)`. -/
def ZLimit.limit (s : ZLimit) (name : String) (maxCalls : Int) : OpResult :=
  let rc := if ¬ jsIn s.remainingCalls name
            then jsSet s.remainingCalls name maxCalls
            else s.remainingCalls
  if jsIn rc name && jsGtZero (jsGetVal rc name) then
    ⟨⟨s.timeouts, jsDecr rc name⟩, true, .tru⟩
  else
    ⟨⟨s.timeouts, rc⟩, false, .fls⟩

/-- `zLimit.once(name, func)`: literally `limit(name, func, 1)`. -/
def ZLimit.once (s : ZLimit) (name : String) : OpResult :=
  s.limit name 1

/-- `zLimit.clear(name)`: returns the registry afterwards and the boolean
return value. -/
def ZLimit.clear (s : ZLimit) (name : String) : ZLimit × Bool :=
  let r1 := jsIn s.timeouts name
  let t := if r1 then jsDelete s.timeouts name else s.timeouts
  let r2 := jsIn s.remainingCalls name
  let rc := if r2 then jsDelete s.remainingCalls name else s.remainingCalls
  (⟨t, rc⟩, r1 || r2)

/-- Run a sequence of `limit` calls on one name, recording for each call
whether the action executed and the JS return value. -/
def limitRuns : ZLimit → String → List Int → List (Bool × JSRet)
  | _, _, [] => []
  | s, name, m :: ms =>
      let r := s.limit name m
      (r.executed, r.ret) :: limitRuns r.state name ms

/-- Run `k` successive `once` calls on one name, recording for each call
whether the action executed and the JS return value. -/
def onceRuns : ZLimit → String → Nat → List (Bool × JSRet)
  | _, _, 0 => []
  | s, name, k + 1 =>
      let r := s.once name
      (r.executed, r.ret) :: onceRuns r.state name k

/-- One call of any of the four public operations (for reachability and
frame statements). -/
inductive Op where
  | onceOp (name : String)
  | throttleOp (name : String) (interval now : Int)
  | limitOp (name : String) (maxCalls : Int)
  | clearOp (name : String)
  deriving DecidableEq, Repr

/-- The name argument of an operation call. -/
def opName : Op → String
  | .onceOp n => n
  | .throttleOp n _ _ => n
  | .limitOp n _ => n
  | .clearOp n => n

/-- State transition of one operation call. -/
def applyOp (s : ZLimit) : Op → ZLimit
  | .onceOp n => (s.once n).state
  | .throttleOp n i t => (s.throttle n i t).state
  | .limitOp n m => (s.limit n m).state
  | .clearOp n => (s.clear n).1

/-- Run a sequence of operation calls. -/
def runOps (s : ZLimit) (ops : List Op) : ZLimit := ops.foldl applyOp s

/-- The `maxCalls` argument of the call, if any, is non-negative. -/
def opNonneg : Op → Prop
  | .limitOp _ m => 0 ≤ m
  | _ => True

instance (op : Op) : Decidable (opNonneg op) := by
  unfold opNonneg; cases op <;> infer_instance

/-! ### Association-list lemmas for the JS object model -/

lemma jsGetOwn_jsSet_self (o : JSObj) (k : String) (v : Int) :
    jsGetOwn (jsSet o k v) k = some v := by
  induction o with
  | nil => simp [jsSet, jsGetOwn]
  | cons p o ih =>
      obtain ⟨a, b⟩ := p
      by_cases h : a = k <;> simp [jsSet, jsGetOwn, h, ih]

lemma jsGetOwn_jsSet_other (o : JSObj) (k : String) (v : Int) (m : String)
    (h : k ≠ m) : jsGetOwn (jsSet o k v) m = jsGetOwn o m := by
  induction o with
  | nil => simp [jsSet, jsGetOwn, h]
  | cons p o ih =>
      obtain ⟨a, b⟩ := p
      by_cases ha : a = k
      · subst ha; simp [jsSet, jsGetOwn, h]
      · simp [jsSet, jsGetOwn, ha, ih]

lemma jsGetOwn_jsDecr_self (o : JSObj) (k : String) (r : Int)
    (h : jsGetOwn o k = some r) : jsGetOwn (jsDecr o k) k = some (r - 1) := by
  induction o with
  | nil => simp [jsGetOwn] at h
  | cons p o ih =>
      obtain ⟨a, b⟩ := p
      by_cases ha : a = k
      · subst ha
        simp [jsGetOwn] at h
        simp [jsDecr, jsGetOwn, h]
      · simp [jsGetOwn, ha] at h
        simp [jsDecr, jsGetOwn, ha, ih h]

lemma jsGetOwn_jsDecr_other (o : JSObj) (k m : String) (h : k ≠ m) :
    jsGetOwn (jsDecr o k) m = jsGetOwn o m := by
  induction o with
  | nil => simp [jsDecr]
  | cons p o ih =>
      obtain ⟨a, b⟩ := p
      by_cases ha : a = k
      · subst ha; simp [jsDecr, jsGetOwn, h]
      · simp [jsDecr, jsGetOwn, ha, ih]

lemma jsGetOwn_jsDelete_self (o : JSObj) (k : String) :
    jsGetOwn (jsDelete o k) k = none := by
  induction o with
  | nil => simp [jsDelete, jsGetOwn]
  | cons p o ih =>
      obtain ⟨a, b⟩ := p
      by_cases ha : a = k
      · simp [jsDelete, ha, ih]
      · simp [jsDelete, jsGetOwn, ha, ih]

lemma jsGetOwn_jsDelete_other (o : JSObj) (k m : String) (h : k ≠ m) :
    jsGetOwn (jsDelete o k) m = jsGetOwn o m := by
  induction o with
  | nil => simp [jsDelete]
  | cons p o ih =>
      obtain ⟨a, b⟩ := p
      by_cases ha : a = k
      · subst ha; simp [jsDelete, jsGetOwn, h, ih]
      · simp [jsDelete, jsGetOwn, ha, ih]

lemma jsHasOwn_eq_false_iff (o : JSObj) (k : String) :
    jsHasOwn o k = false ↔ jsGetOwn o k = none := by
  unfold jsHasOwn
  cases jsGetOwn o k <;> simp

lemma jsHasOwn_eq_true_iff (o : JSObj) (k : String) :
    jsHasOwn o k = true ↔ ∃ v, jsGetOwn o k = some v := by
  unfold jsHasOwn
  cases jsGetOwn o k <;> simp

lemma jsGetOwn_mem (o : JSObj) (k : String) (v : Int)
    (h : jsGetOwn o k = some v) : (k, v) ∈ o := by
  induction o with
  | nil => simp [jsGetOwn] at h
  | cons p o ih =>
      obtain ⟨a, b⟩ := p
      by_cases ha : a = k
      · subst ha
        simp [jsGetOwn] at h
        subst h
        exact List.mem_cons_self _ _
      · simp [jsGetOwn, ha] at h
        exact List.mem_cons_of_mem _ (ih h)

lemma mem_jsSet (o : JSObj) (k : String) (v : Int) (p : String × Int)
    (h : p ∈ jsSet o k v) : p ∈ o ∨ p = (k, v) := by
  induction o with
  | nil => simp [jsSet] at h; simp [h]
  | cons q o ih =>
      obtain ⟨a, b⟩ := q
      by_cases ha : a = k
      · subst ha
        simp [jsSet] at h
        rcases h with h | h
        · right; simp [h]
        · left; exact List.mem_cons_of_mem _ h
      · simp [jsSet, ha] at h
        rcases h with h | h
        · left; simp [h]
        · rcases ih h with h2 | h2
          · left; exact List.mem_cons_of_mem _ h2
          · right; exact h2

lemma mem_jsDelete (o : JSObj) (k : String) (p : String × Int)
    (h : p ∈ jsDelete o k) : p ∈ o := by
  induction o with
  | nil => simp [jsDelete] at h
  | cons q o ih =>
      obtain ⟨a, b⟩ := q
      by_cases ha : a = k
      · simp [jsDelete, ha] at h
        exact List.mem_cons_of_mem _ (ih h)
      · simp [jsDelete, ha] at h
        rcases h with h | h
        · simp [h]
        · exact List.mem_cons_of_mem _ (ih h)

lemma jsDecr_nonneg (o : JSObj) (k : String) (r : Int)
    (ho : ∀ p ∈ o, 0 ≤ p.2) (hr : jsGetOwn o k = some r) (hpos : 0 < r) :
    ∀ p ∈ jsDecr o k, 0 ≤ p.2 := by
  induction o with
  | nil => simp [jsDecr]
  | cons q o ih =>
      obtain ⟨a, b⟩ := q
      by_cases ha : a = k
      · subst ha
        simp [jsGetOwn] at hr
        subst hr
        intro p hp
        simp [jsDecr] at hp
        rcases hp with hp | hp
        · simp [hp]; omega
        · exact ho p (List.mem_cons_of_mem _ hp)
      · simp [jsGetOwn, ha] at hr
        intro p hp
        simp [jsDecr, ha] at hp
        rcases hp with hp | hp
        · subst hp; exact ho (a, b) (List.mem_cons_self _ _)
        · exact ih (fun q hq => ho q (List.mem_cons_of_mem _ hq)) hr p hp

/-! ### Operation-level lemmas -/

lemma jsIn_eq_jsHasOwn (o : JSObj) (name : String) (h : ¬ jsProtoKey name) :
    jsIn o name = jsHasOwn o name := by
  simp [jsIn, h]

lemma jsIn_of_jsGetOwn (o : JSObj) (name : String) (r : Int)
    (h : jsGetOwn o name = some r) : jsIn o name = true := by
  simp [jsIn, jsHasOwn, h]

lemma jsIn_eq_false_parts (o : JSObj) (name : String)
    (h : jsIn o name = false) : jsHasOwn o name = false ∧ ¬ jsProtoKey name := by
  unfold jsIn at h
  simpa using h

lemma jsGetVal_eq_num (o : JSObj) (name : String) (r : Int)
    (h : jsGetOwn o name = some r) : jsGetVal o name = .num r := by
  simp [jsGetVal, h]

/-- Behaviour of `limit` on a name that already has an own quota entry:
the seeding step is skipped and the outcome depends only on the stored
remaining count. -/
lemma limit_seen (s : ZLimit) (name : String) (m r : Int)
    (h : jsGetOwn s.remainingCalls name = some r) :
    s.limit name m =
      if 0 < r then
        ⟨⟨s.timeouts, jsDecr s.remainingCalls name⟩, true, .tru⟩
      else
        ⟨s, false, .fls⟩ := by
  have hin := jsIn_of_jsGetOwn _ _ _ h
  have hval := jsGetVal_eq_num _ _ _ h
  unfold ZLimit.limit
  by_cases hr : 0 < r
  · simp [hin, hval, jsGtZero, hr]
  · simp [hin, hval, jsGtZero, hr]

/-- Behaviour of `limit` on a name with no own quota entry that is not an
inherited `Object.prototype` key: the quota is seeded with `maxCalls` and
the outcome depends on its sign. -/
lemma limit_unseen (s : ZLimit) (name : String) (m : Int)
    (hp : ¬ jsProtoKey name) (h : jsGetOwn s.remainingCalls name = none) :
    s.limit name m =
      if 0 < m then
        ⟨⟨s.timeouts, jsDecr (jsSet s.remainingCalls name m) name⟩, true, .tru⟩
      else
        ⟨⟨s.timeouts, jsSet s.remainingCalls name m⟩, false, .fls⟩ := by
  have hin : jsIn s.remainingCalls name = false := by
    rw [jsIn_eq_jsHasOwn _ _ hp, jsHasOwn_eq_false_iff]; exact h
  have hset : jsGetOwn (jsSet s.remainingCalls name m) name = some m :=
    jsGetOwn_jsSet_self _ _ _
  have hinset := jsIn_of_jsGetOwn _ _ _ hset
  have hvalset := jsGetVal_eq_num _ _ _ hset
  unfold ZLimit.limit
  by_cases hm : 0 < m
  · simp [hin, hinset, hvalset, jsGtZero, hm]
  · simp [hin, hinset, hvalset, jsGtZero, hm]

lemma limit_timeouts (s : ZLimit) (name : String) (m : Int) :
    (s.limit name m).state.timeouts = s.timeouts := by
  unfold ZLimit.limit
  dsimp only
  split <;> split <;> rfl

lemma throttle_remainingCalls (s : ZLimit) (name : String) (interval now : Int) :
    (s.throttle name interval now).state.remainingCalls = s.remainingCalls := by
  unfold ZLimit.throttle
  split
  · rfl
  · split <;> rfl

lemma clear_jsGetOwn_timeouts (s : ZLimit) (name : String) :
    jsGetOwn (s.clear name).1.timeouts name = none := by
  unfold ZLimit.clear
  dsimp only
  cases hj : jsIn s.timeouts name
  · have hh := (jsIn_eq_false_parts _ _ hj).1
    simp only [hj, Bool.false_eq_true, if_false]
    exact (jsHasOwn_eq_false_iff _ _).1 hh
  · simp [hj, jsGetOwn_jsDelete_self]

lemma clear_jsGetOwn_remainingCalls (s : ZLimit) (name : String) :
    jsGetOwn (s.clear name).1.remainingCalls name = none := by
  unfold ZLimit.clear
  dsimp only
  cases hj : jsIn s.remainingCalls name
  · have hh := (jsIn_eq_false_parts _ _ hj).1
    simp only [hj, Bool.false_eq_true, if_false]
    exact (jsHasOwn_eq_false_iff _ _).1 hh
  · simp [hj, jsGetOwn_jsDelete_self]

/-! ### Quota sequences -/

/-- Expected outcome of the `i`-th call (0-based) of a `limit` sequence
whose quota was seeded with `r`: executes and returns `true` while
`i < r`, afterwards suppressed returning `false`. -/
def quotaFlag (r : Int) (i : Nat) : Bool × JSRet :=
  if (i : Int) < r then (true, .tru) else (false, .fls)

lemma quotaFlag_succ (r : Int) (i : Nat) :
    quotaFlag r (i + 1) = quotaFlag (r - 1) i := by
  unfold quotaFlag
  by_cases h : (i : Int) < r - 1
  · rw [if_pos h, if_pos (by push_cast; omega)]
  · rw [if_neg h, if_neg (by push_cast; omega)]

lemma quotaFlag_pos (r : Int) (h : 0 < r) : quotaFlag r 0 = (true, .tru) := by
  unfold quotaFlag
  rw [if_pos (by exact_mod_cast h)]

lemma quotaFlag_nonpos (r : Int) (i : Nat) (h : r ≤ 0) :
    quotaFlag r i = (false, .fls) := by
  unfold quotaFlag
  rw [if_neg (by omega)]

lemma quotaFlags_succ (r : Int) (n : Nat) :
    (List.range (n + 1)).map (quotaFlag r) =
      quotaFlag r 0 :: (List.range n).map (quotaFlag (r - 1)) := by
  rw [List.range_succ_eq_map, List.map_cons, List.map_map]
  congr 1
  apply List.map_congr_left
  intro i _
  simpa [Function.comp] using quotaFlag_succ r i

/-- A `limit` sequence on a name with an own quota entry `r` executes on
exactly the first `r` calls, whatever `maxCalls` values are passed. -/
lemma limitRuns_seen (name : String) :
    ∀ (ms : List Int) (s : ZLimit) (r : Int),
      jsGetOwn s.remainingCalls name = some r →
      limitRuns s name ms = (List.range ms.length).map (quotaFlag r) := by
  intro ms
  induction ms with
  | nil => intro s r _; simp [limitRuns]
  | cons m ms ih =>
      intro s r h
      simp only [limitRuns, limit_seen s name m r h]
      by_cases hr : 0 < r
      · rw [if_pos hr]
        have h2 : jsGetOwn (jsDecr s.remainingCalls name) name = some (r - 1) :=
          jsGetOwn_jsDecr_self _ _ _ h
        rw [ih _ _ h2, List.length_cons, quotaFlags_succ, quotaFlag_pos _ hr]
      · rw [if_neg hr]
        rw [ih _ _ h, List.length_cons, quotaFlags_succ,
          quotaFlag_nonpos _ _ (by omega)]
        congr 1
        apply List.map_congr_left
        intro i _
        rw [quotaFlag_nonpos _ _ (by omega), quotaFlag_nonpos _ _ (by omega)]

/-- A `once` sequence on a name whose own quota entry is exhausted never
executes. -/
lemma onceRuns_exhausted (name : String) :
    ∀ (k : Nat) (s : ZLimit) (r : Int),
      jsGetOwn s.remainingCalls name = some r → r ≤ 0 →
      onceRuns s name k = List.replicate k (false, .fls) := by
  intro k
  induction k with
  | zero => intro s r _ _; simp [onceRuns]
  | succ k ih =>
      intro s r h hr
      simp only [onceRuns, ZLimit.once, limit_seen s name 1 r h,
        if_neg (by omega : ¬ 0 < r)]
      rw [ih _ _ h hr, List.replicate_succ]

/-! ### Claim theorems -/

/-- C1 counterexample: the claim quantifies over every name, but for the
name `toString` — an inherited `Object.prototype` key — a first `limit`
call with `maxCalls = 3` is suppressed and returns `false`, although the
name has no quota entry and the claim requires the first 3 calls to
execute. -/
theorem spec_c1_cex :
    jsGetOwn ZLimit.init.remainingCalls "toString" = none ∧
    limitRuns ZLimit.init "toString" [3] = [(false, .fls)] := by decide

/-- C1 (amended): for every name that is not an inherited
`Object.prototype` property key, and every sequence of `limit` calls on
that name starting with no quota entry, the action executes with return
`true` on exactly the first `n1` calls — `n1` the `maxCalls` of the first
call — and is suppressed with return `false` on all later calls; the
`maxCalls` of later calls has no effect, and `n1 = 0` means the action
never executes. -/
theorem spec_c1 (s : ZLimit) (name : String) (n1 : Int) (ns : List Int)
    (h1 : ¬ jsProtoKey name) (h2 : jsGetOwn s.remainingCalls name = none) :
    limitRuns s name (n1 :: ns) =
      (List.range (ns.length + 1)).map (quotaFlag n1) := by
  simp only [limitRuns, limit_unseen s name n1 h1 h2]
  by_cases hn : 0 < n1
  · rw [if_pos hn]
    have h2a : jsGetOwn (jsDecr (jsSet s.remainingCalls name n1) name) name
        = some (n1 - 1) :=
      jsGetOwn_jsDecr_self _ _ _ (jsGetOwn_jsSet_self _ _ _)
    rw [limitRuns_seen name ns _ _ h2a, quotaFlags_succ, quotaFlag_pos _ hn]
  · rw [if_neg hn]
    rw [limitRuns_seen name ns _ _ (jsGetOwn_jsSet_self _ _ _), quotaFlags_succ,
      quotaFlag_nonpos _ _ (by omega)]
    congr 1
    apply List.map_congr_left
    intro i _
    rw [quotaFlag_nonpos _ _ (by omega), quotaFlag_nonpos _ _ (by omega)]

/-- C1 witness: the spec's concrete scenario — `limit('x', f, 3)` called
five times executes on calls 1-3 and is suppressed on calls 4-5. -/
theorem spec_c1_witness :
    limitRuns ZLimit.init "x" [3, 3, 3, 3, 3] =
      [(true, .tru), (true, .tru), (true, .tru), (false, .fls), (false, .fls)] := by
  rw [spec_c1 ZLimit.init "x" 3 [3, 3, 3, 3] (by decide) (by decide)]
  decide

/-- C7: the claim says `clear` returns `false` for every name never
passed to any operation, explicitly including `toString` and
`hasOwnProperty`; on a fresh registry the code returns `true` for those
names, because the JS `in` operator sees the keys inherited from
`Object.prototype` (for an ordinary unseen name it does return
`false`). -/
theorem spec_c7 :
    (ZLimit.init.clear "toString").2 = true ∧
    (ZLimit.init.clear "hasOwnProperty").2 = true ∧
    (ZLimit.init.clear "x").2 = false := by decide

/-- C8 counterexample: `limit` with a negative `maxCalls` on a fresh name
does record a quota entry (seeded with the negative value) and fails with
no error — the claim says no operation mutates state on malformed
input. -/
theorem spec_c8_cex :
    jsGetOwn (ZLimit.init.limit "a" (-1)).state.remainingCalls "a" = some (-1) ∧
    (ZLimit.init.limit "a" (-1)).executed = false ∧
    (ZLimit.init.limit "a" (-1)).ret = .fls := by decide

/-- C8 (amended): the operations perform no argument validation and never
fail; `limit` with a negative `maxCalls` on a name with no quota entry
records a quota entry holding the negative value, returns `false`, and
does not execute the action. -/
theorem spec_c8 (s : ZLimit) (name : String) (m : Int)
    (h1 : ¬ jsProtoKey name) (h2 : jsGetOwn s.remainingCalls name = none)
    (h3 : m < 0) :
    (s.limit name m).executed = false ∧ (s.limit name m).ret = .fls ∧
    jsGetOwn (s.limit name m).state.remainingCalls name = some m := by
  rw [limit_unseen s name m h1 h2, if_neg (by omega)]
  exact ⟨rfl, rfl, jsGetOwn_jsSet_self _ _ _⟩

/-- C8 witness: instance of the amended claim at `maxCalls = -2`. -/
theorem spec_c8_witness :
    (ZLimit.init.limit "a" (-2)).executed = false ∧
    (ZLimit.init.limit "a" (-2)).ret = .fls ∧
    jsGetOwn (ZLimit.init.limit "a" (-2)).state.remainingCalls "a" = some (-2) :=
  spec_c8 ZLimit.init "a" (-2) (by decide) (by decide) (by decide)

/-- C9: `limit` on a name the quota object does not know (the code's own
`in` test fails) with `maxCalls ≤ 0` returns `false` without executing
the action, yet creates a quota entry holding `maxCalls` as-is, so a
subsequent `clear` of that name returns `true`. -/
theorem spec_c9 (s : ZLimit) (name : String) (m : Int)
    (h1 : jsIn s.remainingCalls name = false) (h2 : m ≤ 0) :
    (s.limit name m).executed = false ∧ (s.limit name m).ret = .fls ∧
    jsGetOwn (s.limit name m).state.remainingCalls name = some m ∧
    ((s.limit name m).state.clear name).2 = true := by
  obtain ⟨hh, hp⟩ := jsIn_eq_false_parts _ _ h1
  have h0 : jsGetOwn s.remainingCalls name = none := (jsHasOwn_eq_false_iff _ _).1 hh
  rw [limit_unseen s name m hp h0, if_neg (by omega)]
  refine ⟨rfl, rfl, jsGetOwn_jsSet_self _ _ _, ?_⟩
  unfold ZLimit.clear
  dsimp only
  rw [jsIn_of_jsGetOwn _ _ _ (jsGetOwn_jsSet_self _ _ _)]
  simp

/-- C9 witness: `limit('a', f, 0)` on a fresh registry — no execution,
return `false`, quota entry `0` created, and `clear('a')` then returns
`true`. -/
theorem spec_c9_witness :
    (ZLimit.init.limit "a" 0).executed = false ∧
    (ZLimit.init.limit "a" 0).ret = .fls ∧
    jsGetOwn (ZLimit.init.limit "a" 0).state.remainingCalls "a" = some 0 ∧
    ((ZLimit.init.limit "a" 0).state.clear "a").2 = true :=
  spec_c9 ZLimit.init "a" 0 (by decide) (by decide)

/-- C2 counterexample: for the name `toString` — an inherited
`Object.prototype` key — the first `throttle` call does not record a
timestamp, does not execute the action, and returns `undefined` instead
of `false`, because the `in` test sees the inherited key and the
comparison against the inherited value is false. -/
theorem spec_c2_cex :
    jsGetOwn ZLimit.init.timeouts "toString" = none ∧
    (ZLimit.init.throttle "toString" 5 0).executed = false ∧
    (ZLimit.init.throttle "toString" 5 0).ret = .undefined ∧
    (ZLimit.init.throttle "toString" 5 0).state = ZLimit.init := by decide

/-- C2 (amended): for every name that is not an inherited
`Object.prototype` property key, `throttle` has the claimed three-way
outcome: with no timestamp entry it records the current time, executes
the action and returns `false`; with a recorded timestamp `t` it executes
and returns `true` with the timestamp updated iff `now - t ≥ interval`
(boundary included), and otherwise executes nothing, returns `undefined`
and leaves the state unchanged. -/
theorem spec_c2 (s : ZLimit) (name : String) (interval now : Int)
    (h : ¬ jsProtoKey name) :
    (jsGetOwn s.timeouts name = none →
      (s.throttle name interval now).executed = true ∧
      (s.throttle name interval now).ret = .fls ∧
      jsGetOwn (s.throttle name interval now).state.timeouts name = some now) ∧
    (∀ t, jsGetOwn s.timeouts name = some t →
      (t + interval ≤ now →
        (s.throttle name interval now).executed = true ∧
        (s.throttle name interval now).ret = .tru ∧
        jsGetOwn (s.throttle name interval now).state.timeouts name = some now) ∧
      (now < t + interval →
        (s.throttle name interval now).executed = false ∧
        (s.throttle name interval now).ret = .undefined ∧
        (s.throttle name interval now).state = s)) := by
  constructor
  · intro h0
    have hin : jsIn s.timeouts name = false := by
      rw [jsIn_eq_jsHasOwn _ _ h, jsHasOwn_eq_false_iff]; exact h0
    simp [ZLimit.throttle, hin, jsGetOwn_jsSet_self]
  · intro t ht
    have hin := jsIn_of_jsGetOwn _ _ _ ht
    have hval := jsGetVal_eq_num _ _ _ ht
    constructor
    · intro hle
      have hge : jsNowGe now (jsGetVal s.timeouts name) interval = true := by
        rw [hval]; simp only [jsNowGe, decide_eq_true_eq]; exact hle
      simp [ZLimit.throttle, hin, hge, jsGetOwn_jsSet_self]
    · intro hlt
      have hge : jsNowGe now (jsGetVal s.timeouts name) interval = false := by
        rw [hval]; simp only [jsNowGe, decide_eq_false_iff_not]; omega
      simp [ZLimit.throttle, hin, hge]

/-- C2 witness: the spec's throttle scenario at interval 5 — the first
call (t=0) executes returning `false`; the call at t=3 is suppressed
returning `undefined` with the state unchanged; the call at t=6 executes
returning `true`. -/
theorem spec_c2_witness :
    ((ZLimit.init.throttle "z" 5 0).executed = true ∧
     (ZLimit.init.throttle "z" 5 0).ret = .fls ∧
     jsGetOwn (ZLimit.init.throttle "z" 5 0).state.timeouts "z" = some 0) ∧
    (((ZLimit.init.throttle "z" 5 0).state.throttle "z" 5 3).executed = false ∧
     ((ZLimit.init.throttle "z" 5 0).state.throttle "z" 5 3).ret = .undefined ∧
     ((ZLimit.init.throttle "z" 5 0).state.throttle "z" 5 3).state
        = (ZLimit.init.throttle "z" 5 0).state) ∧
    (((ZLimit.init.throttle "z" 5 0).state.throttle "z" 5 6).executed = true ∧
     ((ZLimit.init.throttle "z" 5 0).state.throttle "z" 5 6).ret = .tru) := by
  refine ⟨(spec_c2 ZLimit.init "z" 5 0 (by decide)).1 (by decide), ?_, ?_⟩
  · exact ((spec_c2 (ZLimit.init.throttle "z" 5 0).state "z" 5 3 (by decide)).2
      0 (by decide)).2 (by decide)
  · have hall := ((spec_c2 (ZLimit.init.throttle "z" 5 0).state "z" 5 6 (by decide)).2
      0 (by decide)).1 (by decide)
    exact ⟨hall.1, hall.2.1⟩

/-- C3 counterexample: for the name `toString` — an inherited
`Object.prototype` key — the first `once` call does not execute the
action and returns `false`, although the claim requires every name's
first `once` call to execute and return `true`. -/
theorem spec_c3_cex :
    jsGetOwn ZLimit.init.remainingCalls "toString" = none ∧
    (ZLimit.init.once "toString").executed = false ∧
    (ZLimit.init.once "toString").ret = .fls := by decide

/-- C3 (amended): `once(name, action)` is literally `limit(name, action,
1)` for every name; and for every name that is not an inherited
`Object.prototype` property key and has no quota entry, the first `once`
call executes the action returning `true` and every subsequent call
returns `false` without executing. -/
theorem spec_c3 :
    (∀ (s : ZLimit) (name : String), s.once name = s.limit name 1) ∧
    (∀ (s : ZLimit) (name : String) (k : Nat), ¬ jsProtoKey name →
      jsGetOwn s.remainingCalls name = none →
      onceRuns s name (k + 1) =
        (true, .tru) :: List.replicate k (false, .fls)) := by
  refine ⟨fun s name => rfl, fun s name k hp h0 => ?_⟩
  simp only [onceRuns, ZLimit.once, limit_unseen s name 1 hp h0,
    if_pos (by omega : (0:Int) < 1)]
  have h2 : jsGetOwn (jsDecr (jsSet s.remainingCalls name 1) name) name = some 0 := by
    simpa using jsGetOwn_jsDecr_self (jsSet s.remainingCalls name 1) name 1
      (jsGetOwn_jsSet_self _ _ _)
  rw [onceRuns_exhausted name k _ 0 h2 le_rfl]

/-- C3 witness: the spec's concrete scenario — `once('y', f)` called
three times returns `[true, false, false]` and executes only once. -/
theorem spec_c3_witness :
    onceRuns ZLimit.init "y" (2 + 1) =
      [(true, .tru), (false, .fls), (false, .fls)] := by
  rw [spec_c3.2 ZLimit.init "y" 2 (by decide) (by decide)]
  decide

/-- C4 counterexample: on a fresh registry neither mapping has an entry
for `toString`, yet `clear('toString')` returns `true` — the JS `in`
operator sees the key inherited from `Object.prototype`, so the claimed
"returns true iff an entry was present" fails. -/
theorem spec_c4_cex :
    jsHasOwn ZLimit.init.timeouts "toString" = false ∧
    jsHasOwn ZLimit.init.remainingCalls "toString" = false ∧
    (ZLimit.init.clear "toString").2 = true := by decide

/-- C4 (amended): for every name that is not an inherited
`Object.prototype` property key, `clear` removes the timestamp and quota
entries when present, returns `true` iff at least one of the two entries
was present, and leaves the registry unchanged (returning `false`) when
neither is present. -/
theorem spec_c4 (s : ZLimit) (name : String) (h : ¬ jsProtoKey name) :
    (s.clear name).2 =
      (jsHasOwn s.timeouts name || jsHasOwn s.remainingCalls name) ∧
    jsGetOwn (s.clear name).1.timeouts name = none ∧
    jsGetOwn (s.clear name).1.remainingCalls name = none ∧
    (jsHasOwn s.timeouts name = false → jsHasOwn s.remainingCalls name = false →
      (s.clear name).1 = s) := by
  refine ⟨?_, clear_jsGetOwn_timeouts s name, clear_jsGetOwn_remainingCalls s name, ?_⟩
  · unfold ZLimit.clear
    dsimp only
    rw [jsIn_eq_jsHasOwn _ _ h, jsIn_eq_jsHasOwn _ _ h]
  · intro h1 h2
    unfold ZLimit.clear
    dsimp only
    rw [jsIn_eq_jsHasOwn _ _ h, jsIn_eq_jsHasOwn _ _ h, h1, h2]
    simp

/-- C4 witness: after `limit('a', f, 2)` the quota entry for `a` exists;
`clear('a')` then returns `true` and removes it. -/
theorem spec_c4_witness :
    ((ZLimit.init.limit "a" 2).state.clear "a").2 = true ∧
    jsGetOwn ((ZLimit.init.limit "a" 2).state.clear "a").1.remainingCalls "a"
      = none := by
  have h := spec_c4 (ZLimit.init.limit "a" 2).state "a" (by decide)
  refine ⟨?_, h.2.2.1⟩
  rw [h.1]; decide

/-- C5 counterexample: after `clear('toString')` a `limit` call on
`toString` with quota 2 does not follow the first-call branch and never
executes, because the inherited `Object.prototype` key makes the `in`
test succeed even though the name was reset. -/
theorem spec_c5_cex :
    ((ZLimit.init.clear "toString").1.limit "toString" 2).executed = false := by
  decide

/-- C5 (amended): for every name that is not an inherited
`Object.prototype` property key, `clear(name)` leaves the registry with
no timestamp or quota entry for the name, so a subsequent `throttle` call
follows the first-call branch (executes, returns `false`) and a
subsequent `limit` call with positive quota follows the first-call branch
(executes, returns `true`); in particular the spec scenario
`limit('a', f, 2)`, `clear('a')`, then two more `limit('a', f, 2)` calls
executes on all three `limit` calls. -/
theorem spec_c5 (s : ZLimit) (name : String) (h : ¬ jsProtoKey name) :
    jsGetOwn (s.clear name).1.timeouts name = none ∧
    jsGetOwn (s.clear name).1.remainingCalls name = none ∧
    (∀ interval now,
      ((s.clear name).1.throttle name interval now).executed = true ∧
      ((s.clear name).1.throttle name interval now).ret = .fls) ∧
    (∀ m : Int, 0 < m →
      ((s.clear name).1.limit name m).executed = true ∧
      ((s.clear name).1.limit name m).ret = .tru) ∧
    ((ZLimit.init.limit "a" 2).executed = true ∧
     limitRuns ((ZLimit.init.limit "a" 2).state.clear "a").1 "a" [2, 2] =
       [(true, .tru), (true, .tru)]) := by
  have ht := clear_jsGetOwn_timeouts s name
  have hr := clear_jsGetOwn_remainingCalls s name
  refine ⟨ht, hr, ?_, ?_, by decide⟩
  · intro interval now
    have hin : jsIn (s.clear name).1.timeouts name = false := by
      rw [jsIn_eq_jsHasOwn _ _ h, jsHasOwn_eq_false_iff]; exact ht
    constructor <;> simp [ZLimit.throttle, hin]
  · intro m hm
    rw [limit_unseen _ name m h hr, if_pos hm]
    exact ⟨rfl, rfl⟩

/-- C5 witness: after `limit('b', f, 1)` and `clear('b')`, the quota
entry is gone and the next `limit('b', f, 1)` executes again. -/
theorem spec_c5_witness :
    jsGetOwn ((ZLimit.init.limit "b" 1).state.clear "b").1.remainingCalls "b"
      = none ∧
    (((ZLimit.init.limit "b" 1).state.clear "b").1.limit "b" 1).executed = true := by
  have h := spec_c5 (ZLimit.init.limit "b" 1).state "b" (by decide)
  exact ⟨h.2.1, (h.2.2.2.1 1 (by decide)).1⟩

/-! ### Invariant and frame lemmas -/

/-- Behaviour of `limit` on a name with no own quota entry that is an
inherited `Object.prototype` key: nothing is seeded (the `in` test
succeeds on the inherited key) and the inherited value fails the `> 0`
comparison, so the call is a no-op returning `false`. -/
lemma limit_inherited (s : ZLimit) (name : String) (m : Int)
    (hp : jsProtoKey name) (h : jsGetOwn s.remainingCalls name = none) :
    s.limit name m = ⟨s, false, .fls⟩ := by
  have hin : jsIn s.remainingCalls name = true := by simp [jsIn, hp]
  have hval : jsGetVal s.remainingCalls name = .inherited := by
    simp [jsGetVal, h, hp]
  unfold ZLimit.limit
  simp [hin, hval, jsGtZero]

lemma limit_rc_nonneg (s : ZLimit) (n : String) (m : Int) (hm : 0 ≤ m)
    (hs : ∀ p ∈ s.remainingCalls, 0 ≤ p.2) :
    ∀ p ∈ (s.limit n m).state.remainingCalls, 0 ≤ p.2 := by
  rcases hcase : jsGetOwn s.remainingCalls n with _ | r
  · by_cases hp : jsProtoKey n
    · rw [limit_inherited s n m hp hcase]; exact hs
    · rw [limit_unseen s n m hp hcase]
      have hset : ∀ p ∈ jsSet s.remainingCalls n m, 0 ≤ p.2 := by
        intro q hq
        rcases mem_jsSet _ _ _ _ hq with h | h
        · exact hs q h
        · rw [h]; exact hm
      by_cases hm0 : 0 < m
      · rw [if_pos hm0]
        exact jsDecr_nonneg _ _ _ hset (jsGetOwn_jsSet_self _ _ _) hm0
      · rw [if_neg hm0]; exact hset
  · rw [limit_seen s n m r hcase]
    by_cases hr : 0 < r
    · rw [if_pos hr]; exact jsDecr_nonneg _ _ _ hs hcase hr
    · rw [if_neg hr]; exact hs

lemma applyOp_rc_nonneg (s : ZLimit) (op : Op) (hop : opNonneg op)
    (hs : ∀ p ∈ s.remainingCalls, 0 ≤ p.2) :
    ∀ p ∈ (applyOp s op).remainingCalls, 0 ≤ p.2 := by
  cases op with
  | onceOp n =>
      simp only [applyOp, ZLimit.once]
      exact limit_rc_nonneg s n 1 (by omega) hs
  | throttleOp n i t =>
      intro p hp
      simp only [applyOp, throttle_remainingCalls] at hp
      exact hs p hp
  | limitOp n m =>
      simp only [applyOp]
      exact limit_rc_nonneg s n m hop hs
  | clearOp n =>
      intro p hp
      simp only [applyOp] at hp
      unfold ZLimit.clear at hp
      dsimp only at hp
      split at hp
      · exact hs p (mem_jsDelete _ _ _ hp)
      · exact hs p hp

lemma runOps_rc_nonneg :
    ∀ (ops : List Op) (s : ZLimit), (∀ o ∈ ops, opNonneg o) →
      (∀ p ∈ s.remainingCalls, 0 ≤ p.2) →
      ∀ p ∈ (runOps s ops).remainingCalls, 0 ≤ p.2 := by
  intro ops
  induction ops with
  | nil => intro s _ hs; simpa [runOps] using hs
  | cons op ops ih =>
      intro s hops hs
      have h1 := applyOp_rc_nonneg s op (hops op (List.mem_cons_self _ _)) hs
      have h2 := ih (applyOp s op) (fun o ho => hops o (List.mem_cons_of_mem _ ho)) h1
      simpa [runOps, List.foldl_cons] using h2

lemma jsHasOwn_jsSet (o : JSObj) (k : String) (v : Int) (m : String)
    (h : jsHasOwn o m = true) : jsHasOwn (jsSet o k v) m = true := by
  by_cases hk : k = m
  · subst hk; unfold jsHasOwn; rw [jsGetOwn_jsSet_self]; rfl
  · unfold jsHasOwn; rw [jsGetOwn_jsSet_other _ _ _ _ hk]; exact h

lemma jsHasOwn_jsDecr (o : JSObj) (k m : String)
    (h : jsHasOwn o m = true) : jsHasOwn (jsDecr o k) m = true := by
  by_cases hk : k = m
  · subst hk
    obtain ⟨v, hv⟩ := (jsHasOwn_eq_true_iff _ _).1 h
    unfold jsHasOwn; rw [jsGetOwn_jsDecr_self _ _ _ hv]; rfl
  · unfold jsHasOwn; rw [jsGetOwn_jsDecr_other _ _ _ hk]; exact h

lemma limit_hasOwn (s : ZLimit) (n : String) (mc : Int) (name : String)
    (h : jsHasOwn s.remainingCalls name = true) :
    jsHasOwn (s.limit n mc).state.remainingCalls name = true := by
  rcases hcase : jsGetOwn s.remainingCalls n with _ | r
  · by_cases hp : jsProtoKey n
    · rw [limit_inherited s n mc hp hcase]; exact h
    · rw [limit_unseen s n mc hp hcase]
      by_cases hm : 0 < mc
      · rw [if_pos hm]; exact jsHasOwn_jsDecr _ _ _ (jsHasOwn_jsSet _ _ _ _ h)
      · rw [if_neg hm]; exact jsHasOwn_jsSet _ _ _ _ h
  · rw [limit_seen s n mc r hcase]
    by_cases hr : 0 < r
    · rw [if_pos hr]; exact jsHasOwn_jsDecr _ _ _ h
    · rw [if_neg hr]; exact h

lemma applyOp_hasOwn_rc (s : ZLimit) (name : String) (op : Op)
    (hop : op ≠ Op.clearOp name)
    (h : jsHasOwn s.remainingCalls name = true) :
    jsHasOwn (applyOp s op).remainingCalls name = true := by
  cases op with
  | onceOp n =>
      simp only [applyOp, ZLimit.once]
      exact limit_hasOwn s n 1 name h
  | throttleOp n i t =>
      simp only [applyOp]
      rw [throttle_remainingCalls]; exact h
  | limitOp n m =>
      simp only [applyOp]
      exact limit_hasOwn s n m name h
  | clearOp k =>
      have hk : k ≠ name := fun he => hop (by rw [he])
      simp only [applyOp]
      unfold ZLimit.clear
      dsimp only
      split
      · unfold jsHasOwn at h ⊢
        rw [jsGetOwn_jsDelete_other _ _ _ hk]; exact h
      · exact h

lemma limit_getOwn_frame (s : ZLimit) (n : String) (mc : Int) (m : String)
    (h : m ≠ n) :
    jsGetOwn (s.limit n mc).state.remainingCalls m = jsGetOwn s.remainingCalls m := by
  rcases hcase : jsGetOwn s.remainingCalls n with _ | r
  · by_cases hp : jsProtoKey n
    · rw [limit_inherited s n mc hp hcase]
    · rw [limit_unseen s n mc hp hcase]
      by_cases hm0 : 0 < mc
      · rw [if_pos hm0]
        show jsGetOwn (jsDecr (jsSet s.remainingCalls n mc) n) m = _
        rw [jsGetOwn_jsDecr_other _ _ _ (Ne.symm h),
          jsGetOwn_jsSet_other _ _ _ _ (Ne.symm h)]
      · rw [if_neg hm0]
        show jsGetOwn (jsSet s.remainingCalls n mc) m = _
        rw [jsGetOwn_jsSet_other _ _ _ _ (Ne.symm h)]
  · rw [limit_seen s n mc r hcase]
    by_cases hr : 0 < r
    · rw [if_pos hr]
      show jsGetOwn (jsDecr s.remainingCalls n) m = _
      rw [jsGetOwn_jsDecr_other _ _ _ (Ne.symm h)]
    · rw [if_neg hr]

lemma throttle_timeouts_frame (s : ZLimit) (n : String) (i t : Int) (m : String)
    (h : m ≠ n) :
    jsGetOwn (s.throttle n i t).state.timeouts m = jsGetOwn s.timeouts m := by
  unfold ZLimit.throttle
  split
  · show jsGetOwn (jsSet s.timeouts n t) m = _
    rw [jsGetOwn_jsSet_other _ _ _ _ (Ne.symm h)]
  · split
    · show jsGetOwn (jsSet s.timeouts n t) m = _
      rw [jsGetOwn_jsSet_other _ _ _ _ (Ne.symm h)]
    · rfl

lemma clear_getOwn_frame (s : ZLimit) (n m : String) (h : m ≠ n) :
    jsGetOwn (s.clear n).1.timeouts m = jsGetOwn s.timeouts m ∧
    jsGetOwn (s.clear n).1.remainingCalls m = jsGetOwn s.remainingCalls m := by
  unfold ZLimit.clear
  dsimp only
  constructor
  · split
    · rw [jsGetOwn_jsDelete_other _ _ _ (Ne.symm h)]
    · rfl
  · split
    · rw [jsGetOwn_jsDelete_other _ _ _ (Ne.symm h)]
    · rfl

/-- C6: over every state reachable by operation sequences whose
`maxCalls` arguments are all non-negative, any own quota entry holds a
remaining count ≥ 0; and an operation other than `clear` on that very
name never removes a present quota entry. -/
theorem spec_c6 (ops : List Op) (name : String) (v : Int) (op : Op)
    (h1 : ∀ o ∈ ops, opNonneg o)
    (h2 : jsGetOwn (runOps ZLimit.init ops).remainingCalls name = some v)
    (h3 : op ≠ Op.clearOp name) :
    0 ≤ v ∧
    jsHasOwn (applyOp (runOps ZLimit.init ops) op).remainingCalls name = true := by
  constructor
  · exact runOps_rc_nonneg ops ZLimit.init h1
      (fun p hp => by simp [ZLimit.init] at hp) _ (jsGetOwn_mem _ _ _ h2)
  · exact applyOp_hasOwn_rc _ _ _ h3 (by unfold jsHasOwn; rw [h2]; rfl)

/-- C6 witness: after two `limit('a', f, 1)` calls the quota entry for
`a` is `0` (hence ≥ 0), and a `limit` call on a different name keeps the
exhausted entry present. -/
theorem spec_c6_witness :
    (0 : Int) ≤ 0 ∧
    jsHasOwn (applyOp (runOps ZLimit.init [Op.limitOp "a" 1, Op.limitOp "a" 1])
        (Op.limitOp "b" 3)).remainingCalls "a" = true :=
  spec_c6 [Op.limitOp "a" 1, Op.limitOp "a" 1] "a" 0 (Op.limitOp "b" 3)
    (by decide) (by decide) (by decide)

/-- C10: every operation is per-name local — a call with name `n` leaves
the timestamp entry and the quota entry of every other name `m ≠ n`
unchanged. -/
theorem spec_c10 (s : ZLimit) (op : Op) (m : String) (h : m ≠ opName op) :
    jsGetOwn (applyOp s op).timeouts m = jsGetOwn s.timeouts m ∧
    jsGetOwn (applyOp s op).remainingCalls m = jsGetOwn s.remainingCalls m := by
  cases op with
  | onceOp n =>
      simp only [opName] at h
      simp only [applyOp, ZLimit.once]
      exact ⟨by rw [limit_timeouts], limit_getOwn_frame s n 1 m h⟩
  | throttleOp n i t =>
      simp only [opName] at h
      simp only [applyOp]
      exact ⟨throttle_timeouts_frame s n i t m h, by rw [throttle_remainingCalls]⟩
  | limitOp n mc =>
      simp only [opName] at h
      simp only [applyOp]
      exact ⟨by rw [limit_timeouts], limit_getOwn_frame s n mc m h⟩
  | clearOp n =>
      simp only [opName] at h
      simp only [applyOp]
      exact clear_getOwn_frame s n m h

/-- C10 witness: `clear('b')` leaves the entries of name `a` unchanged. -/
theorem spec_c10_witness :
    jsGetOwn (applyOp (ZLimit.init.limit "a" 2).state (Op.clearOp "b")).timeouts "a"
      = jsGetOwn (ZLimit.init.limit "a" 2).state.timeouts "a" ∧
    jsGetOwn (applyOp (ZLimit.init.limit "a" 2).state (Op.clearOp "b")).remainingCalls "a"
      = jsGetOwn (ZLimit.init.limit "a" 2).state.remainingCalls "a" :=
  spec_c10 (ZLimit.init.limit "a" 2).state (Op.clearOp "b") "a" (by decide)
